import Mathlib

/-!
Verification model of `redis_zset_based_poller.py` (class
`RedisSortedSetQueuePoller`).

The poller works over two Redis sorted sets: the primary queue `Q`
(key `self._sorted_set_key`) and its snapshot `Q.snapshot`
(key `self._snapshot_key = key + '-snapshot'`).

A Redis sorted set holds `(member, score)` pairs with unique members,
ordered ascending by score, ties broken by lexicographic member order.
We embed a sorted set as the list of its elements in exactly that store
order (`ZSet`), so `zrange key 0 0` reads the head of the list and
`zrevrange key 0 0` reads the last element.  Scores are embedded as `Int`
(the code never relies on fractional scores), members as `String`.
An absent key and an empty sorted set are indistinguishable in Redis
(empty sorted sets are deleted), so the empty list models both and
`exists(key)` is `length ≠ 0`.

Python callbacks may raise; this is embedded by letting the eligibility
callback return `CbRes` (a returned `Bool` or a raised exception) and the
process callback return `Bool` (`true` = returned normally, `false` =
raised).  Argument order is kept exactly as in the source: the code
invokes `self.ready_to_process(self._next_item[1], self._next_item[0])`
where `self._next_item` is the redis-py `(member, score)` tuple, so the
first actual argument is the score and the second the member, matching
the declared signature `ready_to_process(self, score, member)`.

The redis-py `transaction(worker, *watched)` primitive is an external
collaborator; per its contract, commands issued on the `pipe` argument
are buffered and applied atomically at commit (retrying the whole worker
on a watched-key conflict), while commands issued on `self._redis`
directly take effect immediately.  With a single poller and no concurrent
actors the worker runs once and commits, which is what `dequeueStep`
models; `dequeueWorkerUncommitted` models the store state after the
worker body ran but before its buffered commands commit.
-/

namespace RedisPoller

/-- A Redis sorted set: its elements `(member, score)` listed in store
order (ascending score, lexicographic member tie-break). -/
abbrev ZSet := List (String × Int)

/-- The store order on `(member, score)` pairs: by score, ties by member
(Redis's internal sorted-set order). -/
def keyLt (a b : String × Int) : Prop :=
  a.2 < b.2 ∨ (a.2 = b.2 ∧ a.1 < b.1)

instance decKeyLt (a b : String × Int) : Decidable (keyLt a b) :=
  inferInstanceAs (Decidable (a.2 < b.2 ∨ (a.2 = b.2 ∧ a.1 < b.1)))

/-- The members of a sorted set. -/
def members (s : ZSet) : List String := s.map Prod.fst

/-- `zscore`-style lookup: the score stored for a member, if present. -/
def lookupScore (m : String) (s : ZSet) : Option Int :=
  (s.find? (fun x => x.1 == m)).map Prod.snd

/-- Membership test for a member identifier. -/
def memberIn (m : String) (s : ZSet) : Bool :=
  s.any (fun x => x.1 == m)

/-- `ZREM key m`: drop the element with member `m` (no-op when absent). -/
def zrem (s : ZSet) (m : String) : ZSet :=
  s.filter (fun x => x.1 != m)

/-- Insert an element into a store-ordered list at its ordered position. -/
def zinsert (m : String) (sc : Int) : ZSet → ZSet
  | [] => [(m, sc)]
  | x :: xs => if keyLt (m, sc) x then (m, sc) :: x :: xs else x :: zinsert m sc xs

/-- `ZADD key sc m` (add-or-update): re-adding an existing member replaces
its score; the element sits at the position its (new) score dictates. -/
def zadd (s : ZSet) (sc : Int) (m : String) : ZSet :=
  zinsert m sc (zrem s m)

/-- Well-formedness of an embedded sorted set: the list is strictly
sorted in store order and member identifiers are unique. -/
def ZOk (s : ZSet) : Prop :=
  s.Pairwise keyLt ∧ (members s).Nodup

/-- The two named sorted sets the poller manipulates:
`q` = the primary queue, `snap` = the `-snapshot` set. -/
structure Store where
  q : ZSet
  snap : ZSet
deriving DecidableEq

/-- Outcome of the Python eligibility callback `ready_to_process`:
it returns a boolean or raises an exception. -/
inductive CbRes where
  | ok : Bool → CbRes
  | exc : CbRes
deriving DecidableEq

/-- An untyped Python value (a redis score or member), used to state
facts about the positional arguments of a callback invocation. -/
inductive PyVal where
  | num : Int → PyVal
  | str : String → PyVal
deriving DecidableEq

/-- The peek in `dequeue` (source lines 54, 59-61):
`zrange(key, 0, 0, withscores=True)[-1]` when `reverse=False`
(the minimal element, i.e. the head of the store order), and
`zrevrange(key, 0, 0, withscores=True)[-1]` when `reverse=True`
(the maximal element).  An empty or absent set yields no item
(the Python code sees an `IndexError` from `[-1]` and ignores it). -/
def peek (reverse : Bool) (q : ZSet) : Option (String × Int) :=
  if reverse then q.getLast? else q.head?

/-- `dequeue` (source lines 48-80), committed effect, returning the new
store and `self._next_item` — `some (member, score)` or `none` for the
Python `(None, None)`.

The worker body (lines 57-76):
  - peeks the extreme item; an empty/absent queue raises `IndexError`
    before anything else runs, which is caught and ignored, leaving the
    store untouched and `_next_item = (None, None)`;
  - overwrites the snapshot with the queue's full contents via
    `self._redis.zunionstore(self._snapshot_key, [self._sorted_set_key])`
    (a single-source union-store, i.e. a copy of `Q`);
  - invokes `ready_to_process(score, member)`:
    - returns True: `pipe.zrem(self._sorted_set_key, member)` removes the
      member from `Q` (applied at commit);
    - returns False: `_next_item` is reset to `(None, None)`;
    - raises: `except Exception` logs and swallows it, so `_next_item`
      keeps the peeked item and no removal is issued. -/
def dequeueStep (reverse : Bool) (ready : Int → String → CbRes) (st : Store) :
    Store × Option (String × Int) :=
  match peek reverse st.q with
  | none => (st, none)
  | some it =>
    let st1 : Store := { st with snap := st.q }
    match ready it.2 it.1 with
    | CbRes.ok true => ({ st1 with q := zrem st1.q it.1 }, some it)
    | CbRes.ok false => (st1, none)
    | CbRes.exc => (st1, some it)

/-- The pair `dequeue` returns to its caller (line 80):
`(self._next_item[1], self._next_item[0])`, i.e. `(score, member)`,
or `(None, None)` when nothing was claimed. -/
def dequeue (reverse : Bool) (ready : Int → String → CbRes) (st : Store) :
    Store × (Option Int × Option String) :=
  let r := dequeueStep reverse ready st
  (r.1, (r.2.map Prod.snd, r.2.map Prod.fst))

/-- Store state after the `dequeue` worker body ran but before its
buffered pipeline commands commit.  Only `pipe.zrem` is buffered; the
snapshot overwrite is issued on `self._redis` directly (line 62) and
thus already applied here, in every branch of the worker. -/
def dequeueWorkerUncommitted (reverse : Bool) (st : Store) : Store :=
  match peek reverse st.q with
  | none => st
  | some _ => { st with snap := st.q }

/-- The positional arguments of the `ready_to_process` invocation in
`dequeue` (lines 66-67): the call is
`self.ready_to_process(self._next_item[1], self._next_item[0])` with
`self._next_item` the redis-py `(member, score)` tuple, so the first
argument is the score and the second the member. -/
def readyCallArgs (reverse : Bool) (q : ZSet) : Option (PyVal × PyVal) :=
  (peek reverse q).map (fun it => (PyVal.num it.2, PyVal.str it.1))

/-- `enqueue(score, member)` (lines 82-86): `zadd` on the primary queue
inside its own transaction. -/
def enqueue (st : Store) (sc : Int) (m : String) : Store :=
  { st with q := zadd st.q sc m }

/-- The recovery check at the start of `run()` (lines 95-101):
if the snapshot key exists and the two cardinalities differ, execute
`self._redis.zunionstore(self._sorted_set_key, [self._snapshot_key])`
— a single-source union-store whose destination is `Q`, i.e. `Q` is
overwritten with the snapshot's contents (the code's own log message
reads "Replacing <key> with <key>-snapshot"). -/
def recoveryStep (st : Store) : Store :=
  if st.snap.length ≠ 0 ∧ st.q.length ≠ st.snap.length then
    { st with q := st.snap }
  else st

/-- State carried across run-loop iterations: the store, the transient
in-flight marker `self._next_item` and the `sleep_between_runs` flag. -/
structure LoopState where
  store : Store
  nextItem : Option (String × Int)
  sleepFlag : Bool
deriving DecidableEq

/-- One iteration of the `while True` body of `_run` (lines 119-141),
starting from its `dequeue()` call; the sleep at the top of the next
iteration is governed by the returned `sleepFlag`.  Also returns the
`(score, member)` arguments of the `process` invocation, when `process`
was invoked.

  - `score, member = self.dequeue()`; if a score came back, `process`
    runs: on normal return the flag clears, the member is removed from
    the snapshot, and `_next_item` is reset to `(None, None)` (line 133);
    if `process` raises, control jumps to `except Exception` (line 134)
    before line 133 runs, so `_next_item` keeps the claimed item and the
    flag is set;
  - with no item, the flag is set and `_next_item` is reset. -/
def runIter (reverse : Bool) (ready : Int → String → CbRes)
    (proc : Int → String → Bool) (st : Store) :
    LoopState × Option (Int × String) :=
  let r := dequeueStep reverse ready st
  match r.2 with
  | some it =>
    if proc it.2 it.1 then
      (⟨{ r.1 with snap := zrem r.1.snap it.1 }, none, false⟩, some (it.2, it.1))
    else
      (⟨r.1, some it, true⟩, some (it.2, it.1))
  | none => (⟨r.1, none, true⟩, none)

/-- The `except KeyboardInterrupt` handler in `run()` (lines 106-112):
if `self._next_item[0]` (the member) is not None, one final
`self.enqueue(self._next_item[1], self._next_item[0])`, i.e.
`enqueue(score, member)`, puts the claimed item back into `Q`. -/
def interruptHandler (st : Store) (ni : Option (String × Int)) : Store :=
  match ni with
  | some it => enqueue st it.2 it.1
  | none => st

/-- A shutdown signal arriving while `process` is in flight: `dequeue`
has completed (so `_next_item` holds the claimed item and the snapshot
zrem of line 130 has not run), then the `KeyboardInterrupt` handler
executes. -/
def interruptedDuringProcess (reverse : Bool) (ready : Int → String → CbRes)
    (st : Store) : Store :=
  let r := dequeueStep reverse ready st
  interruptHandler r.1 r.2

/-- The always-eligible predicate (returns True, never raises). -/
def readyTrue : Int → String → CbRes := fun _ _ => CbRes.ok true

/-- An eligibility predicate that always raises. -/
def readyExcAlways : Int → String → CbRes := fun _ _ => CbRes.exc

/-- A process callback that always returns normally. -/
def procOkAlways : Int → String → Bool := fun _ _ => true

/-- A process callback that always raises. -/
def procFailAlways : Int → String → Bool := fun _ _ => false

/-- The store before any key was written. -/
def emptyStore : Store := ⟨[], []⟩

/-- A sequence of `enqueue(score, member)` calls against a fresh store. -/
def enqueueAll (es : List (Int × String)) : Store :=
  es.foldl (fun st e => enqueue st e.1 e.2) emptyStore

/-- Up to `n` successive `dequeue` calls with the always-true predicate
and no concurrent actors, collecting the claimed `(member, score)` items
in claim order; stops early once a `dequeue` claims nothing. -/
def claimAll (reverse : Bool) : Nat → Store → List (String × Int)
  | 0, _ => []
  | n + 1, st =>
    match dequeueStep reverse readyTrue st with
    | (st1, some it) => it :: claimAll reverse n st1
    | (_, none) => []

/-- The order in which a poller claims items: ascending store order, or
descending when configured with `reverse=True`. -/
def claimOrder (reverse : Bool) (a b : String × Int) : Prop :=
  if reverse then keyLt b a else keyLt a b

/-! Basic facts about the store order and the sorted-set operations. -/

theorem keyLt_trans {a b c : String × Int} (h1 : keyLt a b) (h2 : keyLt b c) :
    keyLt a c := by
  rcases h1 with h1 | ⟨h1e, h1m⟩ <;> rcases h2 with h2 | ⟨h2e, h2m⟩
  · exact Or.inl (lt_trans h1 h2)
  · exact Or.inl (lt_of_lt_of_eq h1 h2e)
  · exact Or.inl (lt_of_eq_of_lt h1e h2)
  · exact Or.inr ⟨h1e.trans h2e, lt_trans h1m h2m⟩

theorem keyLt_resolve {x : String × Int} {m : String} {sc : Int}
    (hne : x.1 ≠ m) (h : ¬ keyLt (m, sc) x) : keyLt x (m, sc) := by
  rcases lt_trichotomy x.2 sc with hs | hs | hs
  · exact Or.inl hs
  · rcases lt_trichotomy x.1 m with hm | hm | hm
    · exact Or.inr ⟨hs, hm⟩
    · exact absurd hm hne
    · exact absurd (Or.inr ⟨hs.symm, hm⟩) h
  · exact absurd (Or.inl hs) h

theorem mem_zrem {s : ZSet} {m : String} {x : String × Int} :
    x ∈ zrem s m ↔ x ∈ s ∧ x.1 ≠ m := by
  simp [zrem, List.mem_filter, bne_iff_ne]

theorem not_mem_members_zrem (s : ZSet) (m : String) :
    m ∉ members (zrem s m) := by
  intro h
  obtain ⟨x, hx, hxm⟩ := List.mem_map.1 h
  exact (mem_zrem.1 hx).2 hxm

theorem zrem_pairwise {s : ZSet} (h : s.Pairwise keyLt) (m : String) :
    (zrem s m).Pairwise keyLt :=
  h.sublist (List.filter_sublist s)

theorem zrem_members_nodup {s : ZSet} (h : (members s).Nodup) (m : String) :
    (members (zrem s m)).Nodup :=
  h.sublist ((List.filter_sublist s).map Prod.fst)

theorem zinsert_perm (m : String) (sc : Int) :
    ∀ s : ZSet, List.Perm (zinsert m sc s) ((m, sc) :: s)
  | [] => List.Perm.refl _
  | x :: xs => by
    by_cases h : keyLt (m, sc) x
    · simp only [zinsert, if_pos h]
      exact List.Perm.refl _
    · simp only [zinsert, if_neg h]
      exact ((zinsert_perm m sc xs).cons x).trans (List.Perm.swap (m, sc) x xs)

theorem zinsert_pairwise (m : String) (sc : Int) :
    ∀ s : ZSet, s.Pairwise keyLt → (∀ x ∈ s, x.1 ≠ m) →
      (zinsert m sc s).Pairwise keyLt
  | [], _, _ => by simp [zinsert]
  | x :: xs, hp, hm => by
    rw [List.pairwise_cons] at hp
    by_cases h : keyLt (m, sc) x
    · simp only [zinsert, if_pos h]
      refine List.pairwise_cons.2 ⟨?_, List.pairwise_cons.2 ⟨hp.1, hp.2⟩⟩
      intro y hy
      rcases List.mem_cons.1 hy with rfl | hy
      · exact h
      · exact keyLt_trans h (hp.1 y hy)
    · simp only [zinsert, if_neg h]
      refine List.pairwise_cons.2 ⟨?_, zinsert_pairwise m sc xs hp.2
        (fun y hy => hm y (List.mem_cons_of_mem x hy))⟩
      intro y hy
      rcases List.mem_cons.1 ((zinsert_perm m sc xs).mem_iff.1 hy) with rfl | hy
      · exact keyLt_resolve (hm x (List.mem_cons_self x xs)) h
      · exact hp.1 y hy

theorem zinsert_members_nodup {s : ZSet} {m : String} (sc : Int)
    (h : (members s).Nodup) (hm : m ∉ members s) :
    (members (zinsert m sc s)).Nodup := by
  have hperm : List.Perm (members (zinsert m sc s)) (m :: members s) :=
    (zinsert_perm m sc s).map Prod.fst
  exact hperm.nodup_iff.2 (List.nodup_cons.2 ⟨hm, h⟩)

theorem ZOk_zadd {s : ZSet} (h : ZOk s) (sc : Int) (m : String) :
    ZOk (zadd s sc m) := by
  refine ⟨?_, ?_⟩
  · exact zinsert_pairwise m sc (zrem s m) (zrem_pairwise h.1 m)
      (fun x hx => (mem_zrem.1 hx).2)
  · exact zinsert_members_nodup sc (zrem_members_nodup h.2 m)
      (not_mem_members_zrem s m)

theorem ZOk_enqueueAll (es : List (Int × String)) : ZOk (enqueueAll es).q := by
  suffices h : ∀ (es : List (Int × String)) (st : Store), ZOk st.q →
      ZOk ((es.foldl (fun st e => enqueue st e.1 e.2) st).q) from
    h es emptyStore ⟨List.Pairwise.nil, List.nodup_nil⟩
  intro es
  induction es with
  | nil => intro st h; exact h
  | cons e es ih => intro st h; exact ih _ (ZOk_zadd h e.1 e.2)

theorem lookupScore_zinsert {s : ZSet} {m : String} (sc : Int)
    (hm : m ∉ members s) : lookupScore m (zinsert m sc s) = some sc := by
  induction s with
  | nil => simp [lookupScore, zinsert]
  | cons x xs ih =>
    have hx : x.1 ≠ m := by
      intro e
      exact hm (List.mem_map.2 ⟨x, List.mem_cons_self x xs, e⟩)
    have hxs : m ∉ members xs := by
      intro hmem
      obtain ⟨y, hy, hym⟩ := List.mem_map.1 hmem
      exact hm (List.mem_map.2 ⟨y, List.mem_cons_of_mem x hy, hym⟩)
    by_cases h : keyLt (m, sc) x
    · simp [lookupScore, zinsert, if_pos h]
    · simp only [zinsert, if_neg h]
      rw [lookupScore, List.find?_cons_of_neg, ← lookupScore]
      · exact ih hxs
      · simp [hx]

theorem lookupScore_zadd (s : ZSet) (sc : Int) (m : String) :
    lookupScore m (zadd s sc m) = some sc :=
  lookupScore_zinsert sc (not_mem_members_zrem s m)

theorem memberIn_of_mem {s : ZSet} {x : String × Int} (h : x ∈ s) :
    memberIn x.1 s = true := by
  simp only [memberIn, List.any_eq_true]
  exact ⟨x, h, by simp⟩

theorem peek_mem {reverse : Bool} {q : ZSet} {it : String × Int}
    (h : peek reverse q = some it) : it ∈ q := by
  cases reverse
  · simp only [peek, Bool.false_eq_true, if_false] at h
    exact List.mem_of_mem_head? (by rw [h]; rfl)
  · simp only [peek, if_true] at h
    rcases List.eq_nil_or_concat q with rfl | ⟨L, b, rfl⟩
    · simp at h
    · rw [List.concat_eq_append, List.getLast?_concat] at h
      rw [List.concat_eq_append]
      cases h
      exact List.mem_append_right L (List.mem_cons_self it [])

theorem zrem_cons {x : String × Int} {xs : ZSet} (h : x.1 ∉ members xs) :
    zrem (x :: xs) x.1 = xs := by
  rw [zrem, List.filter_cons, if_neg (by simp)]
  refine List.filter_eq_self.2 (fun y hy => ?_)
  rw [bne_iff_ne]
  intro e
  exact h (List.mem_map.2 ⟨y, hy, e⟩)

theorem zrem_concat {L : ZSet} {b : String × Int} (h : b.1 ∉ members L) :
    zrem (L ++ [b]) b.1 = L := by
  rw [zrem, List.filter_append]
  have h1 : L.filter (fun x => x.1 != b.1) = L :=
    List.filter_eq_self.2 (fun y hy => by
      rw [bne_iff_ne]
      intro e
      exact h (List.mem_map.2 ⟨y, hy, e⟩))
  have h2 : List.filter (fun x => x.1 != b.1) [b] = [] := by simp
  rw [h1, h2, List.append_nil]

/-! Characterizations of the four `dequeue` outcomes and of the possible
shapes of a run-loop iteration. -/

theorem dequeueStep_none {reverse : Bool} {ready : Int → String → CbRes}
    (st : Store) (h : peek reverse st.q = none) :
    dequeueStep reverse ready st = (st, none) := by
  simp only [dequeueStep, h]

theorem dequeueStep_claim {reverse : Bool} {ready : Int → String → CbRes}
    (st : Store) {it : String × Int} (h : peek reverse st.q = some it)
    (hr : ready it.2 it.1 = CbRes.ok true) :
    dequeueStep reverse ready st = (⟨zrem st.q it.1, st.q⟩, some it) := by
  simp only [dequeueStep, h, hr]

theorem dequeueStep_skip {reverse : Bool} {ready : Int → String → CbRes}
    (st : Store) {it : String × Int} (h : peek reverse st.q = some it)
    (hr : ready it.2 it.1 = CbRes.ok false) :
    dequeueStep reverse ready st = (⟨st.q, st.q⟩, none) := by
  simp only [dequeueStep, h, hr]

theorem dequeueStep_exc {reverse : Bool} {ready : Int → String → CbRes}
    (st : Store) {it : String × Int} (h : peek reverse st.q = some it)
    (hr : ready it.2 it.1 = CbRes.exc) :
    dequeueStep reverse ready st = (⟨st.q, st.q⟩, some it) := by
  simp only [dequeueStep, h, hr]

theorem runIter_none {reverse : Bool} {ready : Int → String → CbRes}
    {proc : Int → String → Bool} {st : Store}
    (h : (dequeueStep reverse ready st).2 = none) :
    runIter reverse ready proc st =
      (⟨(dequeueStep reverse ready st).1, none, true⟩, none) := by
  simp only [runIter, h]

theorem runIter_procOk {reverse : Bool} {ready : Int → String → CbRes}
    {proc : Int → String → Bool} {st : Store} {it : String × Int}
    (h : (dequeueStep reverse ready st).2 = some it)
    (hp : proc it.2 it.1 = true) :
    runIter reverse ready proc st =
      (⟨⟨(dequeueStep reverse ready st).1.q,
          zrem (dequeueStep reverse ready st).1.snap it.1⟩, none, false⟩,
        some (it.2, it.1)) := by
  simp only [runIter, h, hp, if_true]

theorem runIter_procFail {reverse : Bool} {ready : Int → String → CbRes}
    {proc : Int → String → Bool} {st : Store} {it : String × Int}
    (h : (dequeueStep reverse ready st).2 = some it)
    (hp : proc it.2 it.1 = false) :
    runIter reverse ready proc st =
      (⟨(dequeueStep reverse ready st).1, some it, true⟩, some (it.2, it.1)) := by
  simp only [runIter, h, hp, Bool.false_eq_true, if_false]

/-! The recovery step's effect on the cardinality comparison. -/

theorem recoveryStep_card (st : Store) :
    (recoveryStep st).snap.length = 0 ∨
      (recoveryStep st).q.length = (recoveryStep st).snap.length := by
  unfold recoveryStep
  split_ifs with h
  · exact Or.inr rfl
  · rcases not_and_or.mp h with h1 | h2
    · exact Or.inl (not_not.mp h1)
    · exact Or.inr (not_not.mp h2)

theorem recoveryStep_eq_self {st : Store}
    (h : st.snap.length = 0 ∨ st.q.length = st.snap.length) :
    recoveryStep st = st := by
  unfold recoveryStep
  rw [if_neg]
  rintro ⟨h1, h2⟩
  rcases h with h | h
  · exact h1 h
  · exact h2 h

/-! Claim sequences: with the always-true predicate, successive dequeues
pop the store-order extreme one element at a time. -/

theorem claimAll_ascending (n : Nat) : ∀ (q sn : ZSet), (members q).Nodup →
    claimAll false n ⟨q, sn⟩ = q.take n := by
  induction n with
  | zero => intro q sn _; rfl
  | succ n ih =>
    intro q sn hq
    cases q with
    | nil =>
      have hstep : dequeueStep false readyTrue ⟨[], sn⟩ = (⟨[], sn⟩, none) :=
        dequeueStep_none ⟨[], sn⟩ rfl
      simp [claimAll, hstep]
    | cons x xs =>
      simp only [members, List.map_cons, List.nodup_cons] at hq
      have hstep : dequeueStep false readyTrue ⟨x :: xs, sn⟩ =
          (⟨xs, x :: xs⟩, some x) := by
        have hpeek : peek false (x :: xs) = some x := rfl
        rw [dequeueStep_claim ⟨x :: xs, sn⟩ hpeek rfl, zrem_cons hq.1]
      simp only [claimAll, hstep, List.take_succ_cons]
      congr 1
      exact ih xs (x :: xs) hq.2

theorem claimAll_descending (n : Nat) : ∀ (q sn : ZSet), (members q).Nodup →
    claimAll true n ⟨q, sn⟩ = q.reverse.take n := by
  induction n with
  | zero => intro q sn _; rfl
  | succ n ih =>
    intro q sn hq
    rcases List.eq_nil_or_concat q with rfl | ⟨L, b, rfl⟩
    · have hstep : dequeueStep true readyTrue ⟨[], sn⟩ = (⟨[], sn⟩, none) :=
        dequeueStep_none ⟨[], sn⟩ rfl
      simp [claimAll, hstep]
    · rw [List.concat_eq_append] at hq ⊢
      have hsplit : (members L).Nodup ∧ b.1 ∉ members L := by
        have happ : (members L ++ [b.1]).Nodup := by
          simpa [members] using hq
        rcases List.nodup_append.1 happ with ⟨h1, _, hdisj⟩
        exact ⟨h1, fun hmem => hdisj hmem (List.mem_singleton_self b.1)⟩
      have hstep : dequeueStep true readyTrue ⟨L ++ [b], sn⟩ =
          (⟨L, L ++ [b]⟩, some b) := by
        have hpeek : peek true (L ++ [b]) = some b := by
          simp [peek, List.getLast?_concat]
        rw [dequeueStep_claim ⟨L ++ [b], sn⟩ hpeek rfl,
          zrem_concat hsplit.2]
      simp only [claimAll, hstep]
      rw [List.reverse_append, List.reverse_singleton, List.singleton_append,
        List.take_succ_cons]
      congr 1
      exact ih L (L ++ [b]) hsplit.1

/-! The claims. -/

/-- Claim C1 counterexample: with Q = [("a", 1)] and Q.snapshot =
[("a", 2), ("b", 3)] (cardinalities 1 and 2 differ), the recovery step
leaves "a" in Q with score 2, the snapshot's score, not the sum
1 + 2 = 3 the claim predicts: `zunionstore(Q, [snapshot])` has the
snapshot as its only source, so Q is replaced, not additively merged. -/
theorem claim_C1_counterexample :
    recoveryStep ⟨[("a", 1)], [("a", 2), ("b", 3)]⟩ =
      ⟨[("a", 2), ("b", 3)], [("a", 2), ("b", 3)]⟩ ∧
    lookupScore "a" (recoveryStep ⟨[("a", 1)], [("a", 2), ("b", 3)]⟩).q ≠
      some (1 + 2) := by
  decide

/-- Claim C1 amended: when Q.snapshot exists and the cardinalities of Q
and Q.snapshot differ, the recovery step replaces Q with the full
contents of Q.snapshot: every snapshot member ends in Q with its
snapshot score (a member present in both sets takes the snapshot's
score, not the sum; a member present only in Q is dropped), and the
snapshot itself is unchanged. -/
theorem claim_C1_amended (st : Store) (h1 : st.snap.length ≠ 0)
    (h2 : st.q.length ≠ st.snap.length) :
    (recoveryStep st).q = st.snap ∧ (recoveryStep st).snap = st.snap := by
  unfold recoveryStep
  rw [if_pos ⟨h1, h2⟩]
  exact ⟨rfl, rfl⟩

/-- Claim C1 witness: the amended recovery behaviour at a concrete
diverged store. -/
theorem claim_C1_witness :
    ([("a", 2), ("b", 3)] : ZSet).length ≠ 0 ∧
    ([("a", 1)] : ZSet).length ≠ ([("a", 2), ("b", 3)] : ZSet).length ∧
    (recoveryStep ⟨[("a", 1)], [("a", 2), ("b", 3)]⟩).q =
      [("a", 2), ("b", 3)] :=
  ⟨by decide, by decide,
    (claim_C1_amended ⟨[("a", 1)], [("a", 2), ("b", 3)]⟩
      (by decide) (by decide)).1⟩

/-- Claim C2 counterexample: the snapshot overwrite already took effect
in the worker's uncommitted state — before any commit of the watched
transaction — because `zunionstore` is issued on `self._redis` directly
(line 62), not on the transaction pipeline. -/
theorem claim_C2_counterexample :
    (dequeueWorkerUncommitted false ⟨[("a", 1)], []⟩).snap = [("a", 1)] ∧
    (dequeueWorkerUncommitted false ⟨[("a", 1)], []⟩).snap ≠
      (⟨[("a", 1)], []⟩ : Store).snap := by
  decide

/-- Claim C2 amended: of the two store mutations in dequeue, only the
removal of the claimed member from Q is issued on the transaction
pipeline (taking effect at commit); the overwrite of Q.snapshot with the
contents of Q is issued directly on the client inside the worker and is
already effective before the transaction commits. -/
theorem claim_C2_amended (reverse : Bool) (ready : Int → String → CbRes)
    (st : Store) (it : String × Int) (h : peek reverse st.q = some it) :
    (dequeueWorkerUncommitted reverse st).snap = st.q ∧
    (dequeueWorkerUncommitted reverse st).q = st.q ∧
    (ready it.2 it.1 = CbRes.ok true →
      (dequeueStep reverse ready st).1.q = zrem st.q it.1 ∧
      (dequeueStep reverse ready st).1.snap = st.q) := by
  refine ⟨?_, ?_, fun hr => ?_⟩
  · simp only [dequeueWorkerUncommitted, h]
  · simp only [dequeueWorkerUncommitted, h]
  · rw [dequeueStep_claim st h hr]
    exact ⟨rfl, rfl⟩

/-- Claim C2 witness: the amended transaction behaviour at a concrete
one-element queue. -/
theorem claim_C2_witness :
    peek false (⟨[("a", 1)], []⟩ : Store).q = some ("a", 1) ∧
    (dequeueWorkerUncommitted false ⟨[("a", 1)], []⟩).snap =
      (⟨[("a", 1)], []⟩ : Store).q :=
  ⟨rfl, (claim_C2_amended false readyTrue ⟨[("a", 1)], []⟩ ("a", 1) rfl).1⟩

/-- Claim C3 counterexample: an eligibility-predicate exception is not
converted into a backoff: with a predicate that always raises and a
process callback that succeeds, the iteration ends with the sleep flag
clear — the exception was swallowed inside dequeue's worker, the peeked
item was returned as claimed, and processing proceeded. -/
theorem claim_C3_counterexample :
    readyExcAlways 1 "a" = CbRes.exc ∧
    (runIter false readyExcAlways procOkAlways
      ⟨[("a", 1)], []⟩).1.sleepFlag = false := by
  decide

/-- Claim C3 amended: an exception raised by the process callback is
caught at the run-loop iteration boundary and converted into a backoff
with the loop continuing; an exception raised by the eligibility
predicate is caught (and logged) inside dequeue's transaction worker,
not at the iteration boundary: the loop continues, but the peeked item
is treated as claimed and no backoff results when processing it
succeeds. -/
theorem claim_C3_amended :
    (∀ (reverse : Bool) (ready : Int → String → CbRes)
        (proc : Int → String → Bool) (st : Store) (it : String × Int),
        (dequeueStep reverse ready st).2 = some it → proc it.2 it.1 = false →
        (runIter reverse ready proc st).1.sleepFlag = true) ∧
    (∀ (reverse : Bool) (ready : Int → String → CbRes)
        (proc : Int → String → Bool) (st : Store) (it : String × Int),
        peek reverse st.q = some it → ready it.2 it.1 = CbRes.exc →
        proc it.2 it.1 = true →
        (runIter reverse ready proc st).1.sleepFlag = false) := by
  constructor
  · intro reverse ready proc st it h hp
    rw [runIter_procFail h hp]
  · intro reverse ready proc st it h hr hp
    rw [runIter_procOk (by rw [dequeueStep_exc st h hr]) hp]

/-- Claim C3 witness: both parts of the amended containment behaviour at
a concrete one-element queue. -/
theorem claim_C3_witness :
    (runIter false readyTrue procFailAlways
      ⟨[("a", 1)], []⟩).1.sleepFlag = true ∧
    (runIter false readyExcAlways procOkAlways
      ⟨[("a", 1)], []⟩).1.sleepFlag = false :=
  ⟨claim_C3_amended.1 false readyTrue procFailAlways ⟨[("a", 1)], []⟩
      ("a", 1) (by decide) rfl,
    claim_C3_amended.2 false readyExcAlways procOkAlways ⟨[("a", 1)], []⟩
      ("a", 1) rfl rfl rfl⟩

/-- Claim C4 (confirmed): for every sequence of enqueues against a fresh
store followed by dequeues with the always-true predicate and no
concurrent actors, the claimed items are pairwise in strict score order
— ascending for reverse=False, descending for reverse=True — with the
store's member order breaking score ties. -/
theorem claim_C4_claim_order (reverse : Bool) (es : List (Int × String))
    (n : Nat) :
    (claimAll reverse n (enqueueAll es)).Pairwise (claimOrder reverse) := by
  obtain ⟨hsort, hnodup⟩ := ZOk_enqueueAll es
  have hst : enqueueAll es = ⟨(enqueueAll es).q, (enqueueAll es).snap⟩ := rfl
  cases reverse
  · rw [hst, claimAll_ascending n _ _ hnodup]
    have hall : (enqueueAll es).q.Pairwise (claimOrder false) :=
      hsort.imp (fun hab => by simpa [claimOrder] using hab)
    exact hall.sublist (List.take_sublist n _)
  · rw [hst, claimAll_descending n _ _ hnodup]
    have hall : (enqueueAll es).q.reverse.Pairwise (claimOrder true) := by
      rw [List.pairwise_reverse]
      exact hsort.imp (fun hab => by simpa [claimOrder] using hab)
    exact hall.sublist (List.take_sublist n _)

/-- Claim C5 (confirmed): if the shutdown signal arrives while the
claimed item is still being processed (dequeue committed, the snapshot
cleanup of line 130 not yet run), the KeyboardInterrupt handler
re-enqueues that item's (score, member) into Q — the member is back in Q
with its original score — and the member is still present in
Q.snapshot. -/
theorem claim_C5_shutdown_reenqueue (reverse : Bool)
    (ready : Int → String → CbRes) (st : Store) (it : String × Int)
    (hpeek : peek reverse st.q = some it)
    (hready : ready it.2 it.1 = CbRes.ok true) :
    lookupScore it.1 (interruptedDuringProcess reverse ready st).q =
      some it.2 ∧
    memberIn it.1 (interruptedDuringProcess reverse ready st).snap = true := by
  have hstep := dequeueStep_claim st hpeek hready
  simp only [interruptedDuringProcess, hstep, interruptHandler, enqueue]
  constructor
  · exact lookupScore_zadd _ _ _
  · exact memberIn_of_mem (peek_mem hpeek)

/-- Claim C5 witness: the spec's scenario D — claim "y", interrupt while
processing; afterwards Q holds "y" with its score 1 again and "y" is
still in the snapshot. -/
theorem claim_C5_witness :
    peek false (⟨[("y", 1)], []⟩ : Store).q = some ("y", 1) ∧
    lookupScore "y"
      (interruptedDuringProcess false readyTrue ⟨[("y", 1)], []⟩).q =
      some 1 ∧
    memberIn "y"
      (interruptedDuringProcess false readyTrue ⟨[("y", 1)], []⟩).snap =
      true := by
  have h := claim_C5_shutdown_reenqueue false readyTrue ⟨[("y", 1)], []⟩
    ("y", 1) rfl rfl
  exact ⟨rfl, h.1, h.2⟩

/-- Claim C6 counterexample: in an iteration where the process callback
raises, the in-flight marker is not reset: `self._next_item = (None,
None)` (line 133) sits inside the try block after `process`, so the jump
to the handler skips it and the marker keeps the claimed item. -/
theorem claim_C6_counterexample :
    (runIter false readyTrue procFailAlways ⟨[("a", 1)], []⟩).1.nextItem =
      some ("a", 1) ∧
    (runIter false readyTrue procFailAlways ⟨[("a", 1)], []⟩).1.nextItem ≠
      none := by
  decide

/-- Claim C6 amended: the in-flight marker is reset to (None, None) at
the end of every iteration in which the process callback does not raise
(item claimed and processed, or nothing claimed); when the process
callback raises, the marker keeps the claimed item. -/
theorem claim_C6_amended (reverse : Bool) (ready : Int → String → CbRes)
    (proc : Int → String → Bool) (st : Store)
    (hproc : ∀ sc m, proc sc m = true) :
    (runIter reverse ready proc st).1.nextItem = none := by
  rcases h2 : (dequeueStep reverse ready st).2 with _ | it
  · rw [runIter_none h2]
  · rw [runIter_procOk h2 (hproc it.2 it.1)]

/-- Claim C6 witness: the amended reset behaviour with a never-raising
process callback at a concrete one-element queue. -/
theorem claim_C6_witness :
    (∀ sc m, procOkAlways sc m = true) ∧
    (runIter false readyTrue procOkAlways ⟨[("a", 1)], []⟩).1.nextItem =
      none :=
  ⟨fun _ _ => rfl,
    claim_C6_amended false readyTrue procOkAlways ⟨[("a", 1)], []⟩
      (fun _ _ => rfl)⟩

/-- Claim C7 counterexample: peeking the queue [("a", 1)], the predicate
is invoked with the score 1 as its first positional argument and the
member "a" as its second — not (member, score) as the claim states: the
call site passes `(self._next_item[1], self._next_item[0])` and
`_next_item` is the redis-py `(member, score)` tuple. -/
theorem claim_C7_counterexample :
    readyCallArgs false [("a", 1)] = some (PyVal.num 1, PyVal.str "a") ∧
    readyCallArgs false [("a", 1)] ≠ some (PyVal.str "a", PyVal.num 1) := by
  decide

/-- Claim C7 amended: whenever dequeue peeks a non-empty queue, it
invokes the eligibility predicate with the peeked item's score as the
first argument and its member as the second, in the order
(score, member) — matching the declared signature
`ready_to_process(self, score, member)`. -/
theorem claim_C7_amended (reverse : Bool) (q : ZSet) (it : String × Int)
    (h : peek reverse q = some it) :
    readyCallArgs reverse q = some (PyVal.num it.2, PyVal.str it.1) := by
  simp [readyCallArgs, h]

/-- Claim C7 witness: the amended argument order at a concrete queue. -/
theorem claim_C7_witness :
    peek false [("a", 1)] = some ("a", 1) ∧
    readyCallArgs false [("a", 1)] = some (PyVal.num 1, PyVal.str "a") :=
  ⟨rfl, claim_C7_amended false [("a", 1)] ("a", 1) rfl⟩

/-- Claim C8 (confirmed): on an empty or absent queue (in Redis an empty
sorted set and an absent key are the same store state), dequeue leaves
the store untouched and returns (None, None); the IndexError the Python
code sees from the empty peek is caught and ignored, so no error is
raised — the model is a total function returning the no-item result. -/
theorem claim_C8_empty_queue (reverse : Bool) (ready : Int → String → CbRes)
    (sn : ZSet) :
    dequeue reverse ready ⟨[], sn⟩ = (⟨[], sn⟩, (none, none)) := by
  have hstep : dequeueStep reverse ready ⟨[], sn⟩ = (⟨[], sn⟩, none) :=
    dequeueStep_none ⟨[], sn⟩ (by cases reverse <;> rfl)
  simp [dequeue, hstep]

/-- Claim C9 (confirmed): the recovery step is idempotent — after one
recovery pass the snapshot is absent or the two cardinalities agree, so
a second pass with no intervening claims changes nothing. -/
theorem claim_C9_recovery_idempotent (st : Store) :
    recoveryStep (recoveryStep st) = recoveryStep st ∧
    ((recoveryStep st).snap.length = 0 ∨
      (recoveryStep st).q.length = (recoveryStep st).snap.length) :=
  ⟨recoveryStep_eq_self (recoveryStep_card st), recoveryStep_card st⟩

/-- Claim C10 (confirmed): when the eligibility predicate raises during
dequeue, the exception is swallowed inside the transaction worker and
the peeked item is returned as though claimed while its member was never
removed from Q; the run loop then invokes the process callback on that
item with (score, member), and when the callback succeeds the member is
removed from Q.snapshot only — Q still holds it. -/
theorem claim_C10_predicate_exc_claims_item (reverse : Bool)
    (ready : Int → String → CbRes) (proc : Int → String → Bool) (st : Store)
    (it : String × Int) (hpeek : peek reverse st.q = some it)
    (hexc : ready it.2 it.1 = CbRes.exc) (hproc : proc it.2 it.1 = true) :
    (dequeueStep reverse ready st).2 = some it ∧
    (dequeueStep reverse ready st).1.q = st.q ∧
    it ∈ st.q ∧
    (runIter reverse ready proc st).2 = some (it.2, it.1) ∧
    (runIter reverse ready proc st).1.store.q = st.q ∧
    (runIter reverse ready proc st).1.store.snap = zrem st.q it.1 := by
  have hstep := dequeueStep_exc st hpeek hexc
  have h2 : (dequeueStep reverse ready st).2 = some it := by rw [hstep]
  have hiter := runIter_procOk h2 hproc
  refine ⟨h2, by rw [hstep], peek_mem hpeek, by rw [hiter], ?_, ?_⟩
  · rw [hiter]
    show (dequeueStep reverse ready st).1.q = st.q
    rw [hstep]
  · rw [hiter]
    show zrem (dequeueStep reverse ready st).1.snap it.1 = zrem st.q it.1
    rw [hstep]

/-- Claim C10 witness: the predicate-exception path at a concrete
one-element queue. -/
theorem claim_C10_witness :
    peek false (⟨[("a", 1)], []⟩ : Store).q = some ("a", 1) ∧
    (dequeueStep false readyExcAlways ⟨[("a", 1)], []⟩).2 = some ("a", 1) ∧
    (runIter false readyExcAlways procOkAlways
      ⟨[("a", 1)], []⟩).1.store.q = [("a", 1)] := by
  have h := claim_C10_predicate_exc_claims_item false readyExcAlways
    procOkAlways ⟨[("a", 1)], []⟩ ("a", 1) rfl rfl rfl
  exact ⟨rfl, h.1, h.2.2.2.2.1⟩

end RedisPoller
